import Mathlib

/-!
Verification of the dashboard core: code allocation, mapping tables,
snapshot fingerprinting, poll/broadcast and notification suppression.

The definitions below are a shallow embedding of the Python source:

* src/dashboard/app.py           — project-code allocation
  (_extract_number, _suffix_from_code, _build_company_prefix_map,
   _build_owner_suffix_map, _next_running_number, _auto_project_code,
   _safe_next_running_number_with_retry, add_project_auto)
* src/backup_current/dashboard/app.py — snapshot hash and poller
  (_df_hash, poller)
* src/backup_current/dashboard/utils/notification_system.py
  (NotificationSystem._should_send)

Rows are modelled by the three columns the allocation code reads
(프로젝트 코드, 사업자, 담당자); a missing column in the dataframe makes every
row.get return the default, which in the model corresponds to the field
holding the empty string, so the column-presence guards of the source are
absorbed into the row representation.  Python dictionaries are modelled as
association lists looked up from the front; entries are only ever inserted
when the key is absent, which matches dict insertion order.  The
configuration dictionaries (project_config.json / credentials.json), whose
contents are external data, are passed as explicit parameters.
-/

namespace ITGlobal

/-- Row of the sheet restricted to the three columns used by allocation:
프로젝트 코드 (code), 사업자 (company), 담당자 (owner). -/
structure Row where
  code : String
  company : String
  owner : String
deriving Repr, DecidableEq

/-- Embedding of Python str.strip(): drop whitespace from both ends. -/
def pyStrip (s : String) : String :=
  String.mk (((s.data.dropWhile Char.isWhitespace).reverse.dropWhile Char.isWhitespace).reverse)

/-- Embedding of Python str.upper() on the ASCII letters the config values
use: uppercase every character. -/
def pyUpper (s : String) : String := String.mk (s.data.map Char.toUpper)

/-- Python regex match of [A-Z](\d{4})- at the start of the string
(src/dashboard/app.py _extract_number), returning the numeric group. -/
def extractNumberL : List Char → Option Nat
  | c :: d1 :: d2 :: d3 :: d4 :: h :: _ =>
    if c.isUpper && d1.isDigit && d2.isDigit && d3.isDigit && d4.isDigit && h == '-' then
      some ((((d1.toNat - 48) * 10 + (d2.toNat - 48)) * 10 + (d3.toNat - 48)) * 10
            + (d4.toNat - 48))
    else none
  | _ => none

/-- Embedding of _extract_number. -/
def extractNumber (code : String) : Option Nat := extractNumberL code.data

/-- Python regex match of ([A-Z])\d{4}- at the start of the string
(the learning loop of _build_company_prefix_map), returning group 1. -/
def prefixLetterL : List Char → Option Char
  | c :: d1 :: d2 :: d3 :: d4 :: h :: _ =>
    if c.isUpper && d1.isDigit && d2.isDigit && d3.isDigit && d4.isDigit && h == '-' then
      some c
    else none
  | _ => none

/-- String-level wrapper for prefixLetterL. -/
def prefixLetter (code : String) : Option Char := prefixLetterL code.data

/-- Python regex match of [A-Z]\d{4}-([A-Z]+)$ (src/dashboard/app.py
_suffix_from_code): the suffix after the dash, anchored to the end. -/
def suffixFromCodeL : List Char → Option String
  | c :: d1 :: d2 :: d3 :: d4 :: h :: rest =>
    if c.isUpper && d1.isDigit && d2.isDigit && d3.isDigit && d4.isDigit && h == '-'
        && !rest.isEmpty && rest.all Char.isUpper then
      some (String.mk rest)
    else none
  | _ => none

/-- Embedding of _suffix_from_code. -/
def suffixFromCode (code : String) : Option String := suffixFromCodeL code.data

/-- Association-list fold implementing repeated dict.setdefault: each pair is
inserted at the end only when its key is not yet present.  Both map builders
and the config-default loops of the source have this shape. -/
def setdefaultFold (init : List (String × String)) (xs : List (String × String)) :
    List (String × String) :=
  xs.foldl (fun m kv => if m.lookup kv.1 = none then m ++ [kv] else m) init

/-- Learning pairs of _build_company_prefix_map: for each row, the pair
(company.strip(), first letter of the code) when the code matches
([A-Z])\d{4}- and the company is nonempty.  The code is not stripped there,
mirroring the source. -/
def companyPairs (rows : List Row) : List (String × String) :=
  rows.filterMap fun r =>
    match prefixLetter r.code with
    | some c => if (pyStrip r.company).isEmpty then none else some (pyStrip r.company, String.mk [c])
    | none => none

/-- Embedding of _build_company_prefix_map: learn first-seen (company, prefix)
pairs from the rows, then fill config entries for companies not yet present
(m.setdefault). -/
def buildCompanyPrefixMap (cfgP : List (String × String)) (rows : List Row) :
    List (String × String) :=
  setdefaultFold (setdefaultFold [] (companyPairs rows)) cfgP

/-- Per-row (owner.strip(), suffix) pairs collected by the grouping loop of
_build_owner_suffix_map; the code is stripped there, mirroring the source. -/
def ownerPairs (rows : List Row) : List (String × String) :=
  rows.filterMap fun r =>
    match suffixFromCode (pyStrip r.code) with
    | some suf => if (pyStrip r.owner).isEmpty then none else some (pyStrip r.owner, suf)
    | none => none

/-- Suffixes grouped per owner, in row order (defaultdict(list) grouping). -/
def ownerSuffixes (rows : List Row) (name : String) : List String :=
  (ownerPairs rows).filterMap fun p => if p.1 = name then some p.2 else none

/-- Embedding of Counter(arr).most_common(1)[0][0]: the element with the
largest count; ties are broken in favour of the earliest occurrence, matching
Counter insertion order together with the stable sort of most_common. -/
def mostCommon (l : List String) : Option String :=
  l.foldl (fun acc x =>
    match acc with
    | none => some x
    | some b => if l.count b < l.count x then some x else acc) none

/-- Owner entries in grouping order, each owner paired with the most frequent
suffix of its group.  Duplicated names are harmless: setdefault skips them,
so folding over occurrences equals folding over grouped.items().  The getD
default is never reached, because the suffix list of a name occurring in
ownerPairs is nonempty. -/
def ownerEntries (rows : List Row) : List (String × String) :=
  (ownerPairs rows).map fun p => (p.1, (mostCommon (ownerSuffixes rows p.1)).getD p.2)

/-- Embedding of _build_owner_suffix_map: start from the uppercased config
entries, then setdefault the learned most-frequent suffix per owner. -/
def buildOwnerSuffixMap (cfgS : List (String × String)) (rows : List Row) :
    List (String × String) :=
  setdefaultFold (cfgS.map fun kv => (kv.1, pyUpper kv.2)) (ownerEntries rows)

/-- Numbers parsed from the code column, in row order
(the nums list of _next_running_number). -/
def parsedNumbers (rows : List Row) : List Nat :=
  rows.filterMap fun r => extractNumber r.code

/-- Maximum of a nonempty list, Python max(list); 0 for the empty list. -/
def listMax : List Nat → Nat
  | [] => 0
  | n :: rest => rest.foldl max n

/-- Embedding of _next_running_number: max of all parsed numbers plus one,
or 1 when nothing parses. -/
def nextRunningNumber (rows : List Row) : Nat :=
  let nums := parsedNumbers rows
  if nums.isEmpty then 1 else listMax nums + 1

/-- Decimal digit character, offset into the ASCII digits. -/
def digitChar (d : Nat) : Char := Char.ofNat (48 + d)

/-- Fuelled decimal conversion; the fuel only bounds the recursion depth and
is always sufficient at natDecimal's call site. -/
def natDecimalAux : Nat → Nat → List Char
  | 0, _ => []
  | fuel + 1, n =>
    if n < 10 then [digitChar n] else natDecimalAux fuel (n / 10) ++ [digitChar (n % 10)]

/-- Decimal representation of a natural number, most significant digit
first (the digits produced by the d conversion of f-string formatting). -/
def natDecimal (n : Nat) : List Char := natDecimalAux (n + 1) n

/-- Embedding of f-string formatting with the 04d spec: the decimal digits,
left padded with zeros to width four (longer numbers are kept whole). -/
def pad4 (n : Nat) : String :=
  let s := natDecimal n
  String.mk (List.replicate (4 - s.length) '0' ++ s)

/-- Error taxonomy of the allocation path, matching the exceptions raised in
the source: ValueError for unresolved mappings, the max-retry exception for
exhaustion, and the load failure of load_data returning None. -/
inductive AllocError where
  | mappingUnresolved
  | allocationExhausted
  | dataUnavailable
deriving Repr, DecidableEq

/-- Result of an allocation call. -/
inductive AllocResult where
  | ok (code : String)
  | error (e : AllocError)
deriving Repr, DecidableEq

/-- Python truthiness test applied by `if not prefix or not suffix`:
a missing key or an empty-string value both fail the test. -/
def falsy (o : Option String) : Bool :=
  match o with
  | none => true
  | some s => s.isEmpty

/-- Embedding of _auto_project_code: build both maps, look up the stripped
company and owner, fail when either is falsy, otherwise format
prefix + zero-padded number + "-" + suffix. -/
def autoProjectCode (cfgP cfgS : List (String × String)) (rows : List Row)
    (company owner : String) : AllocResult :=
  let compMap := buildCompanyPrefixMap cfgP rows
  let ownMap := buildOwnerSuffixMap cfgS rows
  let pfx := compMap.lookup (pyStrip company)
  let sfx := ownMap.lookup (pyStrip owner)
  if falsy pfx || falsy sfx then .error .mappingUnresolved
  else .ok ((pfx.getD "") ++ pad4 (nextRunningNumber rows) ++ "-" ++ (sfx.getD ""))

/-- Code column as a list of strings
(df of the source: astype(str).tolist()). -/
def codesOf (rows : List Row) : List String := rows.map (·.code)

/-- Outcome of one iteration of the retry loop of
_safe_next_running_number_with_retry, given the dataframe that load_data
returned for that attempt (none when load_data returned None). -/
inductive AttemptOutcome where
  | success (code : String)
  | collide (code : String)
  | failure (e : AllocError)
deriving Repr, DecidableEq

/-- Body of one locked attempt: reload the data, generate a code, then check
it against the existing codes of the same dataframe. -/
def attemptOutcome (cfgP cfgS : List (String × String)) (company owner : String) :
    Option (List Row) → AttemptOutcome
  | none => .failure .dataUnavailable
  | some rows =>
    match autoProjectCode cfgP cfgS rows company owner with
    | .error e => .failure e
    | .ok code => if (codesOf rows).contains code then .collide code else .success code

/-- Retry-loop control flow of _safe_next_running_number_with_retry over the
per-attempt outcomes (one list entry per loop iteration, so a list of length
max_retries): success returns at once; a collision or an exception on any
attempt but the last moves on to the next attempt; on the last attempt a
collision raises the max-retry exception and any other exception is
re-raised.  The empty case is the unreachable trailing raise. -/
def runRetry : List AttemptOutcome → AllocResult
  | [] => .error .dataUnavailable
  | [o] =>
    match o with
    | .success c => .ok c
    | .collide _ => .error .allocationExhausted
    | .failure e => .error e
  | o :: rest =>
    match o with
    | .success c => .ok c
    | _ => runRetry rest

/-- Number of loop iterations runRetry consumes. -/
def attemptsUsed : List AttemptOutcome → Nat
  | [] => 0
  | [_] => 1
  | o :: rest =>
    match o with
    | .success _ => 1
    | _ => 1 + attemptsUsed rest

/-- Default max_retries of _safe_next_running_number_with_retry. -/
def maxRetries : Nat := 5

/-- Backoff slept before the next attempt after attempt number n (counted
from zero), in tenths of a second: time.sleep(0.1 * (attempt + 1)). -/
def backoffDelay (n : Nat) : Nat := n + 1

/-- Embedding of _safe_next_running_number_with_retry, with the dataframe
loaded at each attempt supplied as a list (length max_retries). -/
def safeNextWithRetry (cfgP cfgS : List (String × String)) (company owner : String)
    (dfs : List (Option (List Row))) : AllocResult :=
  runRetry (dfs.map (attemptOutcome cfgP cfgS company owner))

/-- Mirror of the StructuredCode format exactly as the specification words it
(refinement target, not a source translation): a single uppercase letter,
then a zero-padded 4-digit decimal, then one or more uppercase letters,
concatenated with nothing in between. -/
def specStructuredCode (s : String) : Bool :=
  match s.data with
  | c :: d1 :: d2 :: d3 :: d4 :: rest =>
    c.isUpper && d1.isDigit && d2.isDigit && d3.isDigit && d4.isDigit
      && !rest.isEmpty && rest.all Char.isUpper
  | _ => false

/-!
Two concurrent calls of the allocation endpoint (add_project_auto), modelled
as an interleaving of atomic steps over the shared sheet.  The RLock of
_safe_next_running_number_with_retry is held for exactly one loop iteration
at a time (the time.sleep before a retry happens inside the with block, and
the lock is released between iterations), so one whole iteration —
load_data, _auto_project_code, duplicate check — is one atomic step; no lock
state needs to be carried between steps because no thread holds the lock
between its own steps.  After the retry function returns, add_project_auto
performs a separate final duplicate check against a fresh load_data (its own
step) and then appends the row to the sheet (another step); neither holds
the lock.
-/

/-- Control state of one caller of add_project_auto. -/
inductive TStatus where
  | attempt (k : Nat)
  | verify (code : String)
  | append (code : String)
  | committed (code : String)
  | rejectedDup (code : String)
  | failed (e : AllocError)
deriving Repr, DecidableEq

/-- Shared sheet plus the control state of the two callers. -/
structure AllocSys where
  sheet : List Row
  t0 : TStatus
  t1 : TStatus
deriving Repr, DecidableEq

/-- One atomic step of one caller: a locked retry-loop iteration, the final
duplicate check of add_project_auto, or the append to the sheet.  newRow
builds the row the caller appends from the allocated code. -/
def stepStatus (cfgP cfgS : List (String × String)) (company owner : String)
    (newRow : String → Row) (sheet : List Row) (st : TStatus) : TStatus × List Row :=
  match st with
  | .attempt k =>
    (match attemptOutcome cfgP cfgS company owner (some sheet) with
     | .success code => (.verify code, sheet)
     | .collide _ =>
       if k + 1 < maxRetries then (.attempt (k + 1), sheet)
       else (.failed .allocationExhausted, sheet)
     | .failure e =>
       if k + 1 < maxRetries then (.attempt (k + 1), sheet) else (.failed e, sheet))
  | .verify code =>
    if (codesOf sheet).contains code then (.rejectedDup code, sheet) else (.append code, sheet)
  | .append code => (.committed code, sheet ++ [newRow code])
  | st => (st, sheet)

/-- Step of the two-caller system; false steps caller 0, true steps
caller 1.  Both callers request the same company and owner. -/
def stepSys (cfgP cfgS : List (String × String)) (company owner : String)
    (newRow : String → Row) (sys : AllocSys) (i : Bool) : AllocSys :=
  if i then
    let (st, sheet) := stepStatus cfgP cfgS company owner newRow sys.sheet sys.t1
    { sys with t1 := st, sheet := sheet }
  else
    let (st, sheet) := stepStatus cfgP cfgS company owner newRow sys.sheet sys.t0
    { sys with t0 := st, sheet := sheet }

/-- Run of the two-caller system under a schedule. -/
def runSched (cfgP cfgS : List (String × String)) (company owner : String)
    (newRow : String → Row) (init : AllocSys) (sched : List Bool) : AllocSys :=
  sched.foldl (stepSys cfgP cfgS company owner newRow) init

/-!
Notification suppression
(src/backup_current/dashboard/utils/notification_system.py _should_send).
Timestamps are modelled as integers (seconds); self.suppress_minutes and the
_recent dict are the state.
-/

/-- State of NotificationSystem: the configured suppression minutes and the
_recent dict of per-key last-notified timestamps. -/
structure NotifState where
  suppressMinutes : Int
  recent : List (String × Int)
deriving Repr, DecidableEq

/-- In-place dict update m[k] = v: replace the first pair with key k,
append at the end when the key is new. -/
def setKey (l : List (String × Int)) (k : String) (v : Int) : List (String × Int) :=
  match l with
  | [] => [(k, v)]
  | kv :: rest => if kv.1 = k then (k, v) :: rest else kv :: setKey rest k v

/-- Embedding of _should_send: compare now against the stored stamp
(default 0), return true and stamp the key when at least
suppress_minutes * 60 have elapsed, otherwise return false and leave the
state untouched. -/
def shouldSend (st : NotifState) (now : Int) (key : String) : Bool × NotifState :=
  let last := (st.recent.lookup key).getD 0
  if st.suppressMinutes * 60 ≤ now - last then
    (true, { st with recent := setKey st.recent key now })
  else
    (false, st)

/-!
Snapshot fingerprinting and the poll loop
(src/backup_current/dashboard/app.py _df_hash and poller).  A dataframe is a
column list plus a list of rows of stringified cells; _df_hash feeds the
tuple of row tuples (column names excluded, as itertuples(index=False)
yields only the values) to Python's builtin hash and stringifies the
result.  The builtin hash is not part of this repository; it enters the
model as an explicit function parameter, and the specification's
collision-resistance assumption becomes an injectivity hypothesis where a
theorem needs it.
-/

/-- Dataframe snapshot: column names and rows of stringified cells. -/
structure Snapshot where
  cols : List String
  rows : List (List String)
deriving Repr, DecidableEq

/-- Pandas df.empty: no rows or no columns. -/
def dfEmpty (s : Snapshot) : Bool := s.rows.isEmpty || s.cols.isEmpty

/-- Embedding of _df_hash: the literal string "empty" for None or an empty
dataframe, otherwise the hash of the row contents. -/
def dfHash (hashF : List (List String) → String) : Option Snapshot → String
  | none => "empty"
  | some s => if dfEmpty s then "empty" else hashF s.rows

/-- Cache state of the poller module: _cache_df and _cache_hash
(None before boot). -/
structure PollState where
  cache : Option Snapshot
  cacheHash : Option String
deriving Repr, DecidableEq

/-- Embedding of one successful iteration of poller: fetch a dataframe, hash
it, and when the hash differs from the cached one, first replace the cache
and then broadcast (the returned flag). -/
def pollTick (hashF : List (List String) → String) (st : PollState) (fetched : Snapshot) :
    PollState × Bool :=
  let h := dfHash hashF (some fetched)
  if some h ≠ st.cacheHash then (⟨some fetched, some h⟩, true) else (st, false)

/-- Snapshot of the end-to-end scenario: codes G0001-YG and P0002-JW, with
글로벌 → G and 박용구 → YG both learnable from the first row. -/
def demoRows : List Row :=
  [⟨"G0001-YG", "글로벌", "박용구"⟩, ⟨"P0002-JW", "플랜트", "박정우"⟩]

/-- Snapshot whose maximal parsed sequence number is 9999, so that the next
allocation overflows the 4-digit field. -/
def overflowRows : List Row := [⟨"G9999-YG", "글로벌", "박용구"⟩]

/-- Row appended by a caller of the allocation endpoint in the two-caller
scenario. -/
def dupNewRow (code : String) : Row := ⟨code, "글로벌", "박용구"⟩

/-- Initial state of the two-caller scenario: one existing row, both callers
about to run their first locked attempt. -/
def dupInit : AllocSys := ⟨[⟨"G0001-YG", "글로벌", "박용구"⟩], .attempt 0, .attempt 0⟩

/-- Interleaving in which both callers run their locked attempt before
either performs its final check, and both final checks happen before either
append. -/
def dupSched : List Bool := [false, true, false, true, false, true]

/-- Final state of the two-caller scenario under dupSched. -/
def dupFinal : AllocSys := runSched [] [] "글로벌" "박용구" dupNewRow dupInit dupSched

/-- Injection of a string into a list of naturals (code points). -/
def strCode (s : String) : List Nat := s.data.map Char.toNat

/-- Injection of a row table into the naturals via the Mathlib encoding. -/
def rowsCode (l : List (List String)) : Nat :=
  Encodable.encode (l.map fun r => r.map strCode)

/-- Concrete injective hash function used to instantiate the
collision-resistance assumption: a marker character followed by a unary
encoding of rowsCode. -/
def demoHash (l : List (List String)) : String :=
  String.mk ('h' :: List.replicate (rowsCode l) 'a')

/-- Spec relation: the second snapshot extends the first by one inserted
row, over the same columns. -/
def addedRow (s1 s2 : Snapshot) : Prop :=
  s1.cols = s2.cols ∧ ∃ pre r post, s1.rows = pre ++ post ∧ s2.rows = pre ++ r :: post

/-- Spec relation: the second snapshot lacks one row of the first. -/
def removedRow (s1 s2 : Snapshot) : Prop := addedRow s2 s1

/-- Spec relation: same rows in a genuinely different order. -/
def reorderedRows (s1 s2 : Snapshot) : Prop :=
  s1.cols = s2.cols ∧ s1.rows.Perm s2.rows ∧ s1.rows ≠ s2.rows

/-- Spec relation: exactly one cell of one row changed. -/
def changedCell (s1 s2 : Snapshot) : Prop :=
  s1.cols = s2.cols ∧ ∃ pre row post j v, j < row.length ∧ row.getD j "" ≠ v
    ∧ s1.rows = pre ++ row :: post ∧ s2.rows = pre ++ row.set j v :: post

/-- Spec relation: any of the four row-level differences. -/
def snapshotDiff (s1 s2 : Snapshot) : Prop :=
  addedRow s1 s2 ∨ removedRow s1 s2 ∨ reorderedRows s1 s2 ∨ changedCell s1 s2

/-! ## Helper lemmas -/

theorem lookup_append_some {l1 l2 : List (String × String)} {k v : String}
    (h : l1.lookup k = some v) : (l1 ++ l2).lookup k = some v := by
  rw [List.lookup_append, h]
  rfl

theorem lookup_append_cases {l1 l2 : List (String × String)} {k v : String}
    (h : (l1 ++ l2).lookup k = some v) :
    l1.lookup k = some v ∨ l2.lookup k = some v := by
  rw [List.lookup_append] at h
  cases h1 : l1.lookup k with
  | none => rw [h1] at h; exact Or.inr h
  | some w => rw [h1] at h; exact Or.inl (by simpa using h)

theorem lookup_mem {l : List (String × String)} {k v : String}
    (h : l.lookup k = some v) : (k, v) ∈ l := by
  obtain ⟨l1, l2, rfl, -⟩ := List.lookup_eq_some_iff.mp h
  simp

theorem setdefaultFold_preserves {init xs : List (String × String)} {k v : String}
    (h : init.lookup k = some v) : (setdefaultFold init xs).lookup k = some v := by
  induction xs generalizing init with
  | nil => exact h
  | cons kv rest ih =>
    simp only [setdefaultFold, List.foldl_cons]
    by_cases h0 : init.lookup kv.1 = none
    · simp only [h0, if_pos rfl]
      exact ih (lookup_append_some h)
    · simp only [if_neg h0]
      exact ih h

theorem lookup_singleton {kv : String × String} {k v : String}
    (h : [kv].lookup k = some v) : (k, v) = kv := by
  obtain ⟨k0, v0⟩ := kv
  rw [List.lookup_cons] at h
  split at h
  · rename_i hbeq
    obtain rfl := eq_of_beq hbeq
    simpa using h.symm
  · simp at h

theorem setdefaultFold_src {init xs : List (String × String)} {k v : String}
    (h : (setdefaultFold init xs).lookup k = some v) :
    init.lookup k = some v ∨ (k, v) ∈ xs := by
  induction xs generalizing init with
  | nil => exact Or.inl h
  | cons kv rest ih =>
    simp only [setdefaultFold, List.foldl_cons] at h
    rcases ih h with h1 | h1
    · by_cases h0 : init.lookup kv.1 = none
      · simp only [h0, if_pos rfl] at h1
        rcases lookup_append_cases h1 with h2 | h2
        · exact Or.inl h2
        · exact Or.inr (lookup_singleton h2 ▸ List.mem_cons_self kv rest)
      · simp only [if_neg h0] at h1
        exact Or.inl h1
    · exact Or.inr (List.mem_cons_of_mem _ h1)

theorem mostCommon_fold_mem (l : List String) :
    ∀ (xs : List String) (acc : Option String) (v : String),
      (∀ x, acc = some x → x ∈ l) → (∀ x ∈ xs, x ∈ l) →
      xs.foldl (fun acc x =>
        match acc with
        | none => some x
        | some b => if l.count b < l.count x then some x else acc) acc = some v → v ∈ l := by
  intro xs
  induction xs with
  | nil => intro acc v hacc _ h; exact hacc v h
  | cons a rest ih =>
    intro acc v hacc hsub h
    simp only [List.foldl_cons] at h
    refine ih _ v ?_ (fun x hx => hsub x (List.mem_cons_of_mem _ hx)) h
    intro x hx
    cases acc with
    | none =>
      have hx2 : some a = some x := hx
      obtain rfl : a = x := by simpa using hx2
      exact hsub _ (List.mem_cons_self _ _)
    | some b =>
      have hx2 : (if l.count b < l.count a then some a else some b) = some x := hx
      by_cases hc : l.count b < l.count a
      · rw [if_pos hc] at hx2
        obtain rfl : a = x := by simpa using hx2
        exact hsub _ (List.mem_cons_self _ _)
      · rw [if_neg hc] at hx2
        exact hacc x hx2

theorem mostCommon_mem {l : List String} {v : String} (h : mostCommon l = some v) : v ∈ l :=
  mostCommon_fold_mem l l none v (by simp) (fun _ hx => hx) h

theorem prefixLetterL_isUpper {l : List Char} {c : Char}
    (h : prefixLetterL l = some c) : c.isUpper = true := by
  unfold prefixLetterL at h
  split at h
  · split at h
    · rename_i hguard
      simp only [Bool.and_eq_true] at hguard
      obtain rfl : _ = c := by simpa using h
      exact hguard.1.1.1.1.1
    · simp at h
  · simp at h

theorem suffixFromCodeL_shape {l : List Char} {s : String}
    (h : suffixFromCodeL l = some s) :
    s ≠ "" ∧ s.data.all Char.isUpper = true := by
  unfold suffixFromCodeL at h
  split at h
  · split at h
    · rename_i rest hguard
      simp only [Bool.and_eq_true] at hguard
      obtain rfl : String.mk rest = s := by simpa using h
      refine ⟨?_, hguard.2⟩
      intro hemp
      have : rest = [] := by simpa using congrArg String.data hemp
      rw [this] at hguard
      simp at hguard
    · simp at h
  · simp at h

theorem companyPairs_shape {rows : List Row} {k v : String}
    (h : (k, v) ∈ companyPairs rows) :
    v.length = 1 ∧ v.data.all Char.isUpper = true := by
  rw [companyPairs, List.mem_filterMap] at h
  obtain ⟨r, -, hr⟩ := h
  cases hp : prefixLetter r.code with
  | none =>
    rw [hp] at hr
    have hr2 : (none : Option (String × String)) = some (k, v) := hr
    simp at hr2
  | some c =>
    rw [hp] at hr
    have hr2 : (if (pyStrip r.company).isEmpty then none
        else some (pyStrip r.company, String.mk [c])) = some (k, v) := hr
    split at hr2
    · simp at hr2
    · obtain ⟨hk, hv⟩ : pyStrip r.company = k ∧ String.mk [c] = v := by simpa using hr2
      rw [← hv]
      refine ⟨rfl, ?_⟩
      have hu := prefixLetterL_isUpper hp
      show ([c].all Char.isUpper) = true
      simp [hu]

theorem ownerPairs_shape {rows : List Row} {p : String × String}
    (h : p ∈ ownerPairs rows) :
    p.2 ≠ "" ∧ p.2.data.all Char.isUpper = true := by
  rw [ownerPairs, List.mem_filterMap] at h
  obtain ⟨r, -, hr⟩ := h
  cases hsf : suffixFromCode (pyStrip r.code) with
  | none =>
    rw [hsf] at hr
    have hr2 : (none : Option (String × String)) = some p := hr
    simp at hr2
  | some suf =>
    rw [hsf] at hr
    have hr2 : (if (pyStrip r.owner).isEmpty then none
        else some (pyStrip r.owner, suf)) = some p := hr
    split at hr2
    · simp at hr2
    · obtain rfl : (pyStrip r.owner, suf) = p := by simpa using hr2
      exact suffixFromCodeL_shape hsf

theorem ownerSuffixes_shape {rows : List Row} {name x : String}
    (h : x ∈ ownerSuffixes rows name) :
    x ≠ "" ∧ x.data.all Char.isUpper = true := by
  rw [ownerSuffixes, List.mem_filterMap] at h
  obtain ⟨p, hp, hx⟩ := h
  split at hx
  · obtain rfl : p.2 = x := by simpa using hx
    exact ownerPairs_shape hp
  · simp at hx

theorem ownerEntries_shape {rows : List Row} {k v : String}
    (h : (k, v) ∈ ownerEntries rows) :
    v ≠ "" ∧ v.data.all Char.isUpper = true := by
  rw [ownerEntries, List.mem_map] at h
  obtain ⟨p, hp, he⟩ := h
  obtain ⟨hk, hv⟩ : p.1 = k ∧ (mostCommon (ownerSuffixes rows p.1)).getD p.2 = v := by
    simpa using he
  rw [← hv]
  cases hm : mostCommon (ownerSuffixes rows p.1) with
  | none => simpa using ownerPairs_shape hp
  | some w => simpa using ownerSuffixes_shape (mostCommon_mem hm)
theorem digitChar_isDigit {d : Nat} (h : d < 10) : (digitChar d).isDigit = true := by
  interval_cases d <;> decide

theorem natDecimalAux_digits : ∀ fuel n, (natDecimalAux fuel n).all Char.isDigit = true := by
  intro fuel
  induction fuel with
  | zero => intro n; rfl
  | succ f ih =>
    intro n
    rw [natDecimalAux]
    split
    · simpa using digitChar_isDigit (by omega)
    · rw [List.all_append]
      simp only [Bool.and_eq_true]
      exact ⟨ih _, by simpa using digitChar_isDigit (Nat.mod_lt _ (by omega))⟩

theorem natDecimalAux_length_le :
    ∀ (fuel k n : Nat), n < 10 ^ k → 1 ≤ k → (natDecimalAux fuel n).length ≤ k := by
  intro fuel
  induction fuel with
  | zero => intro k n _ _; simp [natDecimalAux]
  | succ f ih =>
    intro k n hn hk
    rw [natDecimalAux]
    split
    · simpa using hk
    · rename_i hge
      have hk2 : 2 ≤ k := by
        by_contra hlt
        obtain rfl : k = 1 := by omega
        simp at hn
        omega
      have hdiv : n / 10 < 10 ^ (k - 1) := by
        rw [Nat.div_lt_iff_lt_mul (by omega)]
        calc n < 10 ^ k := hn
        _ = 10 ^ (k - 1) * 10 := by
              rw [← Nat.pow_succ]
              congr 1
              omega
      have := ih (k - 1) (n / 10) hdiv (by omega)
      simp only [List.length_append, List.length_cons, List.length_nil]
      omega

theorem pad4_length {n : Nat} (h : n ≤ 9999) : (pad4 n).length = 4 := by
  have hlen : (natDecimal n).length ≤ 4 :=
    natDecimalAux_length_le (n + 1) 4 n (by omega) (by omega)
  show (String.mk _).length = 4
  simp only [String.length, List.length_append, List.length_replicate]
  omega

theorem pad4_digits {n : Nat} : (pad4 n).data.all Char.isDigit = true := by
  show (List.replicate _ '0' ++ natDecimal n).all Char.isDigit = true
  rw [List.all_append]
  simp only [Bool.and_eq_true]
  constructor
  · rw [List.all_eq_true]
    intro x hx
    obtain rfl := List.eq_of_mem_replicate hx
    decide
  · exact natDecimalAux_digits _ _

theorem runRetry_all_collide :
    ∀ outs : List AttemptOutcome, outs ≠ [] →
      (∀ o ∈ outs, ∃ c, o = .collide c) →
      runRetry outs = .error .allocationExhausted := by
  intro outs
  induction outs with
  | nil => intro h; exact absurd rfl h
  | cons o rest ih =>
    intro _ hall
    obtain ⟨c, rfl⟩ := hall o (List.mem_cons_self _ _)
    cases rest with
    | nil => rfl
    | cons o2 r2 =>
      show runRetry (o2 :: r2) = .error .allocationExhausted
      exact ih (by simp) (fun x hx => hall x (List.mem_cons_of_mem _ hx))

theorem attemptsUsed_le : ∀ outs : List AttemptOutcome, attemptsUsed outs ≤ outs.length := by
  intro outs
  induction outs with
  | nil => simp [attemptsUsed]
  | cons o rest ih =>
    cases rest with
    | nil => simp [attemptsUsed]
    | cons o2 r2 =>
      cases o with
      | success c => simp [attemptsUsed]
      | collide c =>
        show 1 + attemptsUsed (o2 :: r2) ≤ (o2 :: r2).length + 1
        omega
      | failure e =>
        show 1 + attemptsUsed (o2 :: r2) ≤ (o2 :: r2).length + 1
        omega

theorem runRetry_ok_mem :
    ∀ (outs : List AttemptOutcome) (code : String),
      runRetry outs = .ok code → AttemptOutcome.success code ∈ outs := by
  intro outs
  induction outs with
  | nil => intro code h; simp [runRetry] at h
  | cons o rest ih =>
    intro code h
    cases rest with
    | nil =>
      cases o with
      | success c =>
        obtain rfl : c = code := by simpa [runRetry] using h
        exact List.mem_cons_self _ _
      | collide c => simp [runRetry] at h
      | failure e => simp [runRetry] at h
    | cons o2 r2 =>
      cases o with
      | success c =>
        obtain rfl : c = code := by simpa [runRetry] using h
        exact List.mem_cons_self _ _
      | collide c => exact List.mem_cons_of_mem _ (ih code h)
      | failure e => exact List.mem_cons_of_mem _ (ih code h)

theorem lookup_map_value (l : List (String × String)) (f : String → String) (k : String) :
    (l.map fun kv => (kv.1, f kv.2)).lookup k = (l.lookup k).map f := by
  induction l with
  | nil => rfl
  | cons kv rest ih =>
    obtain ⟨a, b⟩ := kv
    simp only [List.map_cons, List.lookup_cons, ih]
    cases hb : k == a <;> rfl

theorem autoCode_unresolved_iff (cfgP cfgS : List (String × String)) (rows : List Row)
    (company owner : String) :
    autoProjectCode cfgP cfgS rows company owner = .error .mappingUnresolved
      ↔ (falsy ((buildCompanyPrefixMap cfgP rows).lookup (pyStrip company)) = true
         ∨ falsy ((buildOwnerSuffixMap cfgS rows).lookup (pyStrip owner)) = true) := by
  simp only [autoProjectCode]
  split
  · rename_i h
    simp only [Bool.or_eq_true] at h
    exact iff_of_true rfl h
  · rename_i h
    simp only [Bool.or_eq_true] at h
    exact iff_of_false (by simp) h

theorem autoCode_company_unknown (cfgP cfgS : List (String × String)) (rows : List Row)
    (company owner : String)
    (h1 : ∀ r ∈ rows, pyStrip r.company ≠ pyStrip company)
    (h2 : ∀ kv ∈ cfgP, kv.1 ≠ pyStrip company) :
    autoProjectCode cfgP cfgS rows company owner = .error .mappingUnresolved := by
  have hnone : (buildCompanyPrefixMap cfgP rows).lookup (pyStrip company) = none := by
    cases hl : (buildCompanyPrefixMap cfgP rows).lookup (pyStrip company) with
    | none => rfl
    | some v =>
      exfalso
      rcases setdefaultFold_src hl with hsrc | hsrc
      · rcases setdefaultFold_src hsrc with h0 | h0
        · simp at h0
        · rw [companyPairs, List.mem_filterMap] at h0
          obtain ⟨r, hrm, hr⟩ := h0
          cases hp : prefixLetter r.code with
          | none =>
            rw [hp] at hr
            have hr2 : (none : Option (String × String)) = some (pyStrip company, v) := hr
            simp at hr2
          | some c =>
            rw [hp] at hr
            have hr2 : (if (pyStrip r.company).isEmpty then none
                else some (pyStrip r.company, String.mk [c])) = some (pyStrip company, v) := hr
            split at hr2
            · simp at hr2
            · obtain ⟨he, -⟩ : pyStrip r.company = pyStrip company ∧ String.mk [c] = v := by
                simpa using hr2
              exact h1 r hrm he
      · exact h2 _ hsrc rfl
  rw [autoCode_unresolved_iff]
  left
  rw [hnone]
  rfl

/-- C2: for every snapshot, the sequence number used by allocation is one
plus the maximum sequence parsed from all existing codes — over all rows,
with no per-prefix or per-company scoping — and 1 when no code parses; on
the concrete snapshot holding codes G0001-YG and P0002-JW with 글로벌 → G and
박용구 → YG learned, allocation yields G0003-YG (global next sequence 3,
coming from the P-prefixed row). -/
theorem allocation_sequence_global :
    (∀ rows : List Row, nextRunningNumber rows = (parsedNumbers rows).foldl max 0 + 1)
    ∧ autoProjectCode [] [] demoRows "글로벌" "박용구" = .ok "G0003-YG" := by
  constructor
  · intro rows
    simp only [nextRunningNumber]
    cases h : parsedNumbers rows with
    | nil => simp
    | cons n rest => simp [listMax, List.foldl_cons, Nat.zero_max]
  · decide

/-- C3: allocation fails with the mapping-unresolved error exactly when the
built company map yields no usable prefix for the stripped company or the
built owner map yields no usable suffix for the stripped owner (a missing
key or an empty value, the Python falsiness test); and a company that occurs
in no row and has no static override always fails that way. -/
theorem mapping_unresolved_exact :
    (∀ (cfgP cfgS : List (String × String)) (rows : List Row) (company owner : String),
      autoProjectCode cfgP cfgS rows company owner = .error .mappingUnresolved
        ↔ (falsy ((buildCompanyPrefixMap cfgP rows).lookup (pyStrip company)) = true
           ∨ falsy ((buildOwnerSuffixMap cfgS rows).lookup (pyStrip owner)) = true))
    ∧ (∀ (cfgP cfgS : List (String × String)) (rows : List Row) (company owner : String),
      (∀ r ∈ rows, pyStrip r.company ≠ pyStrip company) →
      (∀ kv ∈ cfgP, kv.1 ≠ pyStrip company) →
      autoProjectCode cfgP cfgS rows company owner = .error .mappingUnresolved) :=
  ⟨autoCode_unresolved_iff, autoCode_company_unknown⟩

/-- Witness for C3 at concrete inputs: a company absent from all rows and
from the (empty) override table is rejected as unresolved. -/
theorem mapping_unresolved_exact_witness :
    autoProjectCode [] [] demoRows "신규회사" "박용구" = .error .mappingUnresolved :=
  mapping_unresolved_exact.2 [] [] demoRows "신규회사" "박용구" (by decide) (by decide)

/-- C4: the retry loop is bounded: when every attempt of a full-length run
collides, the result is the allocation-exhausted error; the number of
consumed attempts never exceeds the list length (the loop always
terminates within the bound); the backoff schedule increases strictly
linearly; and the default bound is 5. -/
theorem retry_bounded :
    (∀ outs : List AttemptOutcome, outs.length = maxRetries →
      (∀ o ∈ outs, ∃ c, o = AttemptOutcome.collide c) →
      runRetry outs = .error .allocationExhausted)
    ∧ (∀ outs : List AttemptOutcome, attemptsUsed outs ≤ outs.length)
    ∧ (∀ n, backoffDelay n < backoffDelay (n + 1) ∧ backoffDelay (n + 1) = backoffDelay n + 1)
    ∧ maxRetries = 5 := by
  refine ⟨fun outs hlen hall => runRetry_all_collide outs ?_ hall,
    attemptsUsed_le, fun n => by simp [backoffDelay], rfl⟩
  intro hnil
  rw [hnil] at hlen
  simp [maxRetries] at hlen

/-- Witness for C4: five colliding attempts exhaust the allocator. -/
theorem retry_bounded_witness :
    runRetry (List.replicate 5 (.collide "G0002-YG")) = .error .allocationExhausted :=
  retry_bounded.1 (List.replicate 5 (.collide "G0002-YG")) rfl
    (fun _o ho => ⟨"G0002-YG", List.eq_of_mem_replicate ho⟩)

/-- C5: precedence of the two map builders is opposite: a company prefix
learned from the rows survives any static override for the same company,
while a static owner override (stored uppercased) survives any learned
suffix for the same owner. -/
theorem mapping_precedence :
    (∀ (cfgP : List (String × String)) (rows : List Row) (company p : String),
      (setdefaultFold [] (companyPairs rows)).lookup company = some p →
      (buildCompanyPrefixMap cfgP rows).lookup company = some p)
    ∧ (∀ (cfgS : List (String × String)) (rows : List Row) (owner w : String),
      cfgS.lookup owner = some w →
      (buildOwnerSuffixMap cfgS rows).lookup owner = some (pyUpper w)) := by
  constructor
  · intro cfgP rows company p h
    exact setdefaultFold_preserves h
  · intro cfgS rows owner w h
    refine setdefaultFold_preserves ?_
    rw [lookup_map_value, h]
    rfl

/-- Witness for C5: a conflicting override X loses to the learned prefix G,
and a conflicting learned suffix YG loses to the override jw (uppercased). -/
theorem mapping_precedence_witness :
    (buildCompanyPrefixMap [("글로벌", "X")] demoRows).lookup "글로벌" = some "G"
    ∧ (buildOwnerSuffixMap [("박용구", "jw")] demoRows).lookup "박용구" = some (pyUpper "jw") :=
  ⟨mapping_precedence.1 [("글로벌", "X")] demoRows "글로벌" "G" (by decide),
   mapping_precedence.2 [("박용구", "jw")] demoRows "박용구" "jw" (by decide)⟩

/-- C1 (failing-input evaluation): with one existing row G0001-YG and two
callers both allocating for (글로벌, 박용구), the interleaving dupSched — both
locked attempts run before either final check, both final checks before
either append — ends with both callers successfully committed with the same
code G0002-YG, which then appears twice in the sheet.  The lock of
_safe_next_running_number_with_retry is released before add_project_auto
re-checks and appends, so the re-verification is not atomic with the
append and the claimed pairwise distinctness fails. -/
theorem concurrent_duplicate_commit :
    dupFinal.t0 = .committed "G0002-YG" ∧ dupFinal.t1 = .committed "G0002-YG"
    ∧ (codesOf dupFinal.sheet).count "G0002-YG" = 2 := by decide

theorem falsy_eq_false {o : Option String} (h : falsy o = false) :
    ∃ s, o = some s ∧ s ≠ "" := by
  cases o with
  | none => simp [falsy] at h
  | some s =>
    refine ⟨s, rfl, ?_⟩
    intro hs
    rw [hs] at h
    exact absurd h (by decide)

theorem compMap_value_shape {cfgP : List (String × String)} {rows : List Row} {k v : String}
    (hP : ∀ kv ∈ cfgP, kv.2.length = 1 ∧ kv.2.data.all Char.isUpper = true)
    (h : (buildCompanyPrefixMap cfgP rows).lookup k = some v) :
    v.length = 1 ∧ v.data.all Char.isUpper = true := by
  rcases setdefaultFold_src h with h1 | h1
  · rcases setdefaultFold_src h1 with h0 | h0
    · simp at h0
    · exact companyPairs_shape h0
  · exact hP _ h1

theorem ownMap_value_shape {cfgS : List (String × String)} {rows : List Row} {k v : String}
    (hS : ∀ kv ∈ cfgS, pyUpper kv.2 ≠ "" ∧ (pyUpper kv.2).data.all Char.isUpper = true)
    (h : (buildOwnerSuffixMap cfgS rows).lookup k = some v) :
    v ≠ "" ∧ v.data.all Char.isUpper = true := by
  rcases setdefaultFold_src h with h1 | h1
  · rw [lookup_map_value] at h1
    cases hl : cfgS.lookup k with
    | none => rw [hl] at h1; simp at h1
    | some w =>
      rw [hl] at h1
      obtain rfl : pyUpper w = v := by simpa using h1
      exact hS _ (lookup_mem hl)
  · exact ownerEntries_shape h1

theorem autoCode_ok_shape {cfgP cfgS : List (String × String)} {rows : List Row}
    {company owner code : String}
    (hP : ∀ kv ∈ cfgP, kv.2.length = 1 ∧ kv.2.data.all Char.isUpper = true)
    (hS : ∀ kv ∈ cfgS, pyUpper kv.2 ≠ "" ∧ (pyUpper kv.2).data.all Char.isUpper = true)
    (h : autoProjectCode cfgP cfgS rows company owner = .ok code) :
    ∃ p s, p.length = 1 ∧ p.data.all Char.isUpper = true
      ∧ s ≠ "" ∧ s.data.all Char.isUpper = true
      ∧ code = p ++ pad4 (nextRunningNumber rows) ++ "-" ++ s := by
  revert h
  simp only [autoProjectCode]
  split
  · intro h; simp at h
  · rename_i hcond
    intro h
    rw [Bool.or_eq_true, not_or, Bool.not_eq_true, Bool.not_eq_true] at hcond
    obtain ⟨p, hp, hpne⟩ := falsy_eq_false hcond.1
    obtain ⟨s, hs, hsne⟩ := falsy_eq_false hcond.2
    obtain ⟨hp1, hp2⟩ := compMap_value_shape hP hp
    obtain ⟨-, hs2⟩ := ownMap_value_shape hS hs
    refine ⟨p, s, hp1, hp2, hsne, hs2, ?_⟩
    have hcode : (List.lookup (pyStrip company) (buildCompanyPrefixMap cfgP rows)).getD ""
        ++ pad4 (nextRunningNumber rows) ++ "-"
        ++ (List.lookup (pyStrip owner) (buildOwnerSuffixMap cfgS rows)).getD "" = code := by
      simpa using h
    rw [← hcode, hp, hs]
    rfl

theorem attemptOutcome_success {cfgP cfgS : List (String × String)} {rows : List Row}
    {company owner code : String}
    (h : attemptOutcome cfgP cfgS company owner (some rows) = .success code) :
    autoProjectCode cfgP cfgS rows company owner = .ok code
      ∧ (codesOf rows).contains code = false := by
  revert h
  simp only [attemptOutcome]
  cases hac : autoProjectCode cfgP cfgS rows company owner with
  | error e => intro h; simp at h
  | ok c =>
    intro h
    have h2 : (if (codesOf rows).contains c then AttemptOutcome.collide c
        else AttemptOutcome.success c) = AttemptOutcome.success code := h
    by_cases hmem : (codesOf rows).contains c = true
    · rw [if_pos hmem] at h2
      simp at h2
    · rw [if_neg hmem] at h2
      obtain rfl : c = code := by simpa using h2
      exact ⟨rfl, by simpa using hmem⟩

theorem safeNext_ok {cfgP cfgS : List (String × String)} {company owner code : String}
    {dfs : List (Option (List Row))}
    (h : safeNextWithRetry cfgP cfgS company owner dfs = .ok code) :
    ∃ rows, (some rows) ∈ dfs
      ∧ attemptOutcome cfgP cfgS company owner (some rows) = .success code := by
  have hmem := runRetry_ok_mem _ _ h
  rw [List.mem_map] at hmem
  obtain ⟨df, hdf, hout⟩ := hmem
  cases df with
  | none => simp [attemptOutcome] at hout
  | some rows => exact ⟨rows, hdf, hout⟩

/-- C6 counterexample: the successful allocations on the demo snapshots
return G0003-YG and G10000-YG, and the first fails the spec's literal
<Prefix><Sequence><Suffix> format (the source inserts a hyphen between the
sequence and the suffix), while the second shows the sequence field
exceeding four digits once the parsed maximum reaches 9999. -/
theorem structured_code_format_counterexample :
    autoProjectCode [] [] demoRows "글로벌" "박용구" = .ok "G0003-YG"
    ∧ specStructuredCode "G0003-YG" = false
    ∧ autoProjectCode [] [] overflowRows "글로벌" "박용구" = .ok "G10000-YG"
    ∧ (pad4 (nextRunningNumber overflowRows)).length = 5 := by decide

/-- C6 (amended): every code returned by a successful allocation has the
form Prefix ++ Sequence ++ "-" ++ Suffix where the prefix is a single
uppercase letter and the suffix one or more uppercase letters (provided the
static overrides themselves are well-formed), the sequence field is the
zero-padded 4-digit decimal whenever the next running number does not
exceed 9999, and the code is absent from the code column of the dataframe
loaded by the attempt that produced it. -/
theorem allocated_code_shape :
    ∀ (cfgP cfgS : List (String × String)) (company owner : String)
      (dfs : List (Option (List Row))) (code : String),
      (∀ kv ∈ cfgP, kv.2.length = 1 ∧ kv.2.data.all Char.isUpper = true) →
      (∀ kv ∈ cfgS, pyUpper kv.2 ≠ "" ∧ (pyUpper kv.2).data.all Char.isUpper = true) →
      safeNextWithRetry cfgP cfgS company owner dfs = .ok code →
      ∃ rows, (some rows) ∈ dfs ∧ (codesOf rows).contains code = false ∧
        ∃ p s, p.length = 1 ∧ p.data.all Char.isUpper = true
          ∧ s ≠ "" ∧ s.data.all Char.isUpper = true
          ∧ code = p ++ pad4 (nextRunningNumber rows) ++ "-" ++ s
          ∧ (nextRunningNumber rows ≤ 9999 →
              (pad4 (nextRunningNumber rows)).length = 4
              ∧ (pad4 (nextRunningNumber rows)).data.all Char.isDigit = true) := by
  intro cfgP cfgS company owner dfs code hP hS h
  obtain ⟨rows, hmem, hatt⟩ := safeNext_ok h
  obtain ⟨hok, habs⟩ := attemptOutcome_success hatt
  obtain ⟨p, s, hp1, hp2, hs1, hs2, hcode⟩ := autoCode_ok_shape hP hS hok
  exact ⟨rows, hmem, habs, p, s, hp1, hp2, hs1, hs2, hcode,
    fun hle => ⟨pad4_length hle, pad4_digits⟩⟩

/-- Witness for the amended C6 at a concrete run: a single successful
attempt on the demo snapshot. -/
theorem allocated_code_shape_witness :
    ∃ rows, (some rows) ∈ [some demoRows]
      ∧ (codesOf rows).contains "G0003-YG" = false ∧
      ∃ p s, p.length = 1 ∧ p.data.all Char.isUpper = true
        ∧ s ≠ "" ∧ s.data.all Char.isUpper = true
        ∧ "G0003-YG" = p ++ pad4 (nextRunningNumber rows) ++ "-" ++ s
        ∧ (nextRunningNumber rows ≤ 9999 →
            (pad4 (nextRunningNumber rows)).length = 4
            ∧ (pad4 (nextRunningNumber rows)).data.all Char.isDigit = true) :=
  allocated_code_shape [] [] "글로벌" "박용구" [some demoRows] "G0003-YG"
    (by simp) (by simp) (by decide)

theorem lookup_setKey_self (l : List (String × Int)) (k : String) (v : Int) :
    (setKey l k v).lookup k = some v := by
  induction l with
  | nil => simp [setKey]
  | cons kv rest ih =>
    obtain ⟨a, b⟩ := kv
    simp only [setKey]
    split
    · simp
    · rename_i hne
      rw [List.lookup_cons]
      cases hb : k == a with
      | true => exact absurd (eq_of_beq hb).symm hne
      | false => exact ih

theorem shouldSend_fst_iff {st : NotifState} {now : Int} {key : String} :
    (shouldSend st now key).1 = true
      ↔ st.suppressMinutes * 60 ≤ now - (st.recent.lookup key).getD 0 := by
  by_cases hc : st.suppressMinutes * 60 ≤ now - (st.recent.lookup key).getD 0
  · simp [shouldSend, if_pos hc, hc]
  · simp [shouldSend, if_neg hc, hc]

theorem shouldSend_false_state {st : NotifState} {now : Int} {key : String}
    (h : (shouldSend st now key).1 = false) : (shouldSend st now key).2 = st := by
  by_cases hc : st.suppressMinutes * 60 ≤ now - (st.recent.lookup key).getD 0
  · rw [shouldSend_fst_iff.mpr hc] at h
    simp at h
  · simp [shouldSend, if_neg hc]

theorem shouldSend_true_state {st : NotifState} {now : Int} {key : String}
    (h : (shouldSend st now key).1 = true) :
    (shouldSend st now key).2.recent.lookup key = some now
      ∧ (shouldSend st now key).2.suppressMinutes = st.suppressMinutes := by
  have hc := shouldSend_fst_iff.mp h
  simp [shouldSend, if_pos hc, lookup_setKey_self]

/-- C7: a shouldNotify call that returns false leaves the suppression state
unchanged; a call that returns true stamps the key with the current time;
and after a first successful call, a second call for the same key returns
false when spaced less than the suppression duration apart (leaving the
state untouched) and true when spaced more than the duration apart
(restamping the key). -/
theorem suppression_window :
    (∀ (st : NotifState) (now : Int) (key : String),
      (shouldSend st now key).1 = false → (shouldSend st now key).2 = st)
    ∧ (∀ (st : NotifState) (now : Int) (key : String),
      (shouldSend st now key).1 = true →
        (shouldSend st now key).2.recent.lookup key = some now)
    ∧ (∀ (st : NotifState) (key : String) (t1 t2 : Int),
      (shouldSend st t1 key).1 = true →
        (t2 - t1 < st.suppressMinutes * 60 →
          (shouldSend (shouldSend st t1 key).2 t2 key).1 = false
          ∧ (shouldSend (shouldSend st t1 key).2 t2 key).2 = (shouldSend st t1 key).2)
        ∧ (st.suppressMinutes * 60 < t2 - t1 →
          (shouldSend (shouldSend st t1 key).2 t2 key).1 = true
          ∧ (shouldSend (shouldSend st t1 key).2 t2 key).2.recent.lookup key = some t2)) := by
  refine ⟨fun st now key h => shouldSend_false_state h,
    fun st now key h => (shouldSend_true_state h).1, ?_⟩
  intro st key t1 t2 h1
  obtain ⟨hstamp, hsup⟩ := shouldSend_true_state h1
  constructor
  · intro hlt
    have hfalse : (shouldSend (shouldSend st t1 key).2 t2 key).1 = false := by
      rw [← Bool.not_eq_true, shouldSend_fst_iff, hstamp, hsup]
      simpa using not_le.mpr hlt
    exact ⟨hfalse, shouldSend_false_state hfalse⟩
  · intro hgt
    have htrue : (shouldSend (shouldSend st t1 key).2 t2 key).1 = true := by
      rw [shouldSend_fst_iff, hstamp, hsup]
      exact le_of_lt hgt
    exact ⟨htrue, (shouldSend_true_state htrue).1⟩

/-- Witness for C7 on the concrete scenario of the spec: a 120-minute
window, a first call at t = 7200 s on a fresh state, a second call one
minute later returning false, and a call 7201 s after the first returning
true. -/
theorem suppression_window_witness :
    (shouldSend ⟨120, []⟩ 7200 "missing:P0002-JW:주소").1 = true
    ∧ (shouldSend (shouldSend ⟨120, []⟩ 7200 "missing:P0002-JW:주소").2 7260
        "missing:P0002-JW:주소").1 = false
    ∧ (shouldSend (shouldSend ⟨120, []⟩ 7200 "missing:P0002-JW:주소").2 14401
        "missing:P0002-JW:주소").1 = true := by
  have h1 : (shouldSend ⟨120, []⟩ 7200 "missing:P0002-JW:주소").1 = true := by decide
  exact ⟨h1,
    ((suppression_window.2.2 ⟨120, []⟩ "missing:P0002-JW:주소" 7200 7260 h1).1 (by decide)).1,
    ((suppression_window.2.2 ⟨120, []⟩ "missing:P0002-JW:주소" 7200 14401 h1).2 (by decide)).1⟩

/-- C9: across two successive poll ticks that fetch the same content, the
second tick never broadcasts; a tick broadcasts exactly when the fetched
fingerprint differs from the stored one; a broadcasting tick has already
replaced the stored snapshot and fingerprint in its resulting state; and a
non-broadcasting tick leaves the state unchanged. -/
theorem poll_no_redundant_broadcast :
    ∀ (hashF : List (List String) → String) (st : PollState) (df : Snapshot),
      (pollTick hashF (pollTick hashF st df).1 df).2 = false
      ∧ ((pollTick hashF st df).2 = true ↔ st.cacheHash ≠ some (dfHash hashF (some df)))
      ∧ ((pollTick hashF st df).2 = true →
          (pollTick hashF st df).1 = ⟨some df, some (dfHash hashF (some df))⟩)
      ∧ ((pollTick hashF st df).2 = false → (pollTick hashF st df).1 = st) := by
  intro hashF st df
  by_cases hne : some (dfHash hashF (some df)) ≠ st.cacheHash
  · have h1 : pollTick hashF st df
        = (⟨some df, some (dfHash hashF (some df))⟩, true) := by
      simp [pollTick, if_pos hne]
    refine ⟨?_, ?_, ?_, ?_⟩
    · rw [h1]
      simp [pollTick]
    · rw [h1]
      simpa using fun he => hne he.symm
    · rw [h1]
      intro
      rfl
    · rw [h1]
      intro hcontra
      simp at hcontra
  · have h1 : pollTick hashF st df = (st, false) := by
      simp [pollTick, if_neg hne]
    rw [not_ne_iff] at hne
    refine ⟨?_, ?_, ?_, ?_⟩
    · rw [h1]
      simp [pollTick, hne]
    · rw [h1]
      simp [hne.symm]
    · rw [h1]
      intro hcontra
      simp at hcontra
    · rw [h1]
      intro
      rfl

/-- C10: a missing dataframe and every dataframe with zero rows fingerprint
to the constant "empty" whatever the column set; hence any two row-less
snapshots have equal fingerprints, and a poll tick that fetches a row-less
snapshot while a row-less snapshot's fingerprint is stored never
broadcasts. -/
theorem empty_snapshot_constant_hash :
    (∀ hashF : List (List String) → String, dfHash hashF none = "empty")
    ∧ (∀ (hashF : List (List String) → String) (s : Snapshot),
        s.rows = [] → dfHash hashF (some s) = "empty")
    ∧ (∀ (hashF : List (List String) → String) (s1 s2 : Snapshot),
        s1.rows = [] → s2.rows = [] →
        dfHash hashF (some s1) = dfHash hashF (some s2))
    ∧ (∀ (hashF : List (List String) → String) (st : PollState) (s1 s2 : Snapshot),
        s1.rows = [] → s2.rows = [] →
        st.cacheHash = some (dfHash hashF (some s1)) →
        (pollTick hashF st s2).2 = false) := by
  have hempty : ∀ (hashF : List (List String) → String) (s : Snapshot),
      s.rows = [] → dfHash hashF (some s) = "empty" := by
    intro hashF s hs
    simp [dfHash, dfEmpty, hs]
  refine ⟨fun _ => rfl, hempty, ?_, ?_⟩
  · intro hashF s1 s2 h1 h2
    rw [hempty hashF s1 h1, hempty hashF s2 h2]
  · intro hashF st s1 s2 h1 h2 hst
    simp [pollTick, hst, hempty hashF s1 h1, hempty hashF s2 h2]

theorem char_toNat_injective : Function.Injective Char.toNat :=
  Function.LeftInverse.injective Char.ofNat_toNat

theorem strCode_injective : Function.Injective strCode := by
  intro a b h
  exact String.ext (List.map_injective_iff.mpr char_toNat_injective h)

theorem rowsCode_injective : Function.Injective rowsCode := by
  intro a b h
  exact List.map_injective_iff.mpr (List.map_injective_iff.mpr strCode_injective)
    (Encodable.encode_injective h)

theorem demoHash_injective : Function.Injective demoHash := by
  intro a b h
  have hdata : 'h' :: List.replicate (rowsCode a) 'a'
      = 'h' :: List.replicate (rowsCode b) 'a' := congrArg String.data h
  injection hdata with h1 h2
  have hlen : rowsCode a = rowsCode b := by
    have := congrArg List.length h2
    simpa using this
  exact rowsCode_injective hlen

theorem demoHash_ne_empty : ∀ l, demoHash l ≠ "empty" := by
  intro l h
  have hdata : 'h' :: List.replicate (rowsCode l) 'a' = "empty".data := congrArg String.data h
  rw [show "empty".data = ['e', 'm', 'p', 't', 'y'] from rfl] at hdata
  injection hdata with h1 h2
  exact absurd h1 (by decide)

theorem snapshotDiff_rows_ne {s1 s2 : Snapshot} (h : snapshotDiff s1 s2) :
    s1.rows ≠ s2.rows := by
  rcases h with ⟨-, pre, r, post, h1, h2⟩ | ⟨-, pre, r, post, h2, h1⟩ | ⟨-, -, hne⟩
    | ⟨-, pre, row, post, j, v, hj, hnev, h1, h2⟩
  · rw [h1, h2]
    intro he
    have := congrArg List.length he
    simp at this
  · rw [h1, h2]
    intro he
    have := congrArg List.length he
    simp at this
  · exact hne
  · rw [h1, h2]
    intro he
    have hcons := List.append_cancel_left he
    injection hcons with hrow hpost
    have hset : (row.set j v).getD j "" = v := by
      rw [List.getD_eq_getElem?_getD, List.getElem?_set_self (by simpa using hj)]
      rfl
    rw [← hrow] at hset
    exact hnev hset

theorem dfHash_ne_of_rows_ne {hashF : List (List String) → String}
    (hinj : Function.Injective hashF) (hne : ∀ l, hashF l ≠ "empty")
    {s1 s2 : Snapshot} (hc1 : s1.cols ≠ []) (hc2 : s2.cols ≠ [])
    (hr : s1.rows ≠ s2.rows) :
    dfHash hashF (some s1) ≠ dfHash hashF (some s2) := by
  have hce1 : s1.cols.isEmpty = false := by simpa using hc1
  have hce2 : s2.cols.isEmpty = false := by simpa using hc2
  by_cases e1 : s1.rows = [] <;> by_cases e2 : s2.rows = []
  · exact absurd (e1.trans e2.symm) hr
  · have hh1 : dfHash hashF (some s1) = "empty" := by
      simp [dfHash, dfEmpty, e1]
    have hh2 : dfHash hashF (some s2) = hashF s2.rows := by
      simp [dfHash, dfEmpty, e2, hce2]
    rw [hh1, hh2]
    exact fun h => hne s2.rows h.symm
  · have hh1 : dfHash hashF (some s1) = hashF s1.rows := by
      simp [dfHash, dfEmpty, e1, hce1]
    have hh2 : dfHash hashF (some s2) = "empty" := by
      simp [dfHash, dfEmpty, e2]
    rw [hh1, hh2]
    exact fun h => hne s1.rows h
  · have hh1 : dfHash hashF (some s1) = hashF s1.rows := by
      simp [dfHash, dfEmpty, e1, hce1]
    have hh2 : dfHash hashF (some s2) = hashF s2.rows := by
      simp [dfHash, dfEmpty, e2, hce2]
    rw [hh1, hh2]
    exact fun h => hr (hinj h)

/-- C8: under the spec's collision-resistance assumption (the builtin hash,
a parameter of the model, is injective and never produces the reserved
string "empty"), fingerprinting is deterministic, and any two snapshots
over the same nonempty column set that differ by an added row, a removed
row, a reordered row or a single changed cell have different
fingerprints. -/
theorem fingerprint_deterministic_sensitive :
    ∀ hashF : List (List String) → String,
      Function.Injective hashF →
      (∀ l, hashF l ≠ "empty") →
      (∀ S : Option Snapshot, dfHash hashF S = dfHash hashF S)
      ∧ (∀ s1 s2 : Snapshot, s1.cols ≠ [] → s2.cols ≠ [] → snapshotDiff s1 s2 →
          dfHash hashF (some s1) ≠ dfHash hashF (some s2)) := by
  intro hashF hinj hne
  refine ⟨fun S => rfl, fun s1 s2 hc1 hc2 hdiff => ?_⟩
  exact dfHash_ne_of_rows_ne hinj hne hc1 hc2 (snapshotDiff_rows_ne hdiff)

/-- Witness for C8: an explicit injective hash (demoHash) and two concrete
one-column snapshots differing by an added row get different
fingerprints. -/
theorem fingerprint_deterministic_sensitive_witness :
    dfHash demoHash (some ⟨["c"], [["a"]]⟩) ≠ dfHash demoHash (some ⟨["c"], [["a"], ["b"]]⟩) :=
  (fingerprint_deterministic_sensitive demoHash demoHash_injective demoHash_ne_empty).2
    ⟨["c"], [["a"]]⟩ ⟨["c"], [["a"], ["b"]]⟩ (by simp) (by simp)
    (Or.inl ⟨rfl, [["a"]], ["b"], [], rfl, rfl⟩)

/-- Witness for C9 at concrete inputs: starting from the pre-boot state
(no cached hash), the first tick broadcasts and stores the fetched snapshot
and fingerprint, the second identical tick does not broadcast. -/
theorem poll_no_redundant_broadcast_witness :
    (pollTick demoHash (pollTick demoHash ⟨none, none⟩ ⟨["c"], [["a"]]⟩).1 ⟨["c"], [["a"]]⟩).2
      = false
    ∧ (pollTick demoHash ⟨none, none⟩ ⟨["c"], [["a"]]⟩).1
      = ⟨some ⟨["c"], [["a"]]⟩, some (dfHash demoHash (some ⟨["c"], [["a"]]⟩))⟩ := by
  have h := poll_no_redundant_broadcast demoHash ⟨none, none⟩ ⟨["c"], [["a"]]⟩
  refine ⟨h.1, h.2.2.1 ?_⟩
  rw [h.2.1]
  simp

/-- Witness for C10 at concrete inputs: two row-less snapshots with
different column sets fingerprint equal, and a tick fetching the second
while the first's fingerprint is stored does not broadcast. -/
theorem empty_snapshot_constant_hash_witness :
    dfHash demoHash (some ⟨["a", "b"], []⟩) = dfHash demoHash (some ⟨["c"], []⟩)
    ∧ (pollTick demoHash
        ⟨some ⟨["a", "b"], []⟩, some (dfHash demoHash (some ⟨["a", "b"], []⟩))⟩
        ⟨["c"], []⟩).2 = false :=
  ⟨empty_snapshot_constant_hash.2.2.1 demoHash ⟨["a", "b"], []⟩ ⟨["c"], []⟩ rfl rfl,
   empty_snapshot_constant_hash.2.2.2 demoHash
     ⟨some ⟨["a", "b"], []⟩, some (dfHash demoHash (some ⟨["a", "b"], []⟩))⟩
     ⟨["a", "b"], []⟩ ⟨["c"], []⟩ rfl rfl rfl⟩

end ITGlobal
